import Mathlib

/-!
Verification of the sigscan scanning engine against its specification.

The Python sources are shallowly embedded:
* text is `List Char` (Python `str`), bytes are `List Nat` (Python `bytes`);
* the Python `re` module, `fnmatch`, `json.loads`, `xml.etree.fromstring`
  and `chardet` are standard-library / third-party collaborators and are
  abstracted as function parameters; everything written in the repository
  itself is translated concretely;
* floating point ratios/thresholds are modelled by exact rational
  comparisons (cross-multiplied naturals); the sizes involved keep the
  Python float computations exact or far from the decision boundaries.
-/

namespace Sigscan

/-- Python `needle in hay` substring test on strings. -/
def strContains (hay needle : List Char) : Bool :=
  if needle.isPrefixOf hay then true
  else
    match hay with
    | [] => false
    | _ :: t => strContains t needle

/-- `any(w in s for w in subs)`. -/
def containsAny (subs : List (List Char)) (s : List Char) : Bool :=
  subs.any fun w => strContains s w

/-- Python `str.lower` (ASCII fragment; all configured literals are ASCII). -/
def lowerStr (s : List Char) : List Char := s.map Char.toLower

/-! ## `sigscan.core.models` -/

/-- `ParsedRecord` from `core/models.py`: file identity, 1-based index,
raw text and display context. -/
structure ParsedRecord where
  file_path : List Char
  line_num : Nat
  text : List Char
  context : List Char
  deriving DecidableEq

/-- The open metadata mapping attached to a `Finding`.
`patternMeta rx` stands for `{"pattern": rx.pattern}` (base regex stage);
`entropyMeta tok` stands for `{"entropy": round(H(tok), 3), "detector":
"entropy"}` — the float entropy value is determined by the token, which we
carry instead of the rounded float. -/
inductive FindingMeta where
  | patternMeta (pattern : List Char)
  | entropyMeta (token : List Char)
  deriving DecidableEq

/-- `Finding` from `core/models.py`. -/
structure Finding where
  secret : Option (List Char)
  context : List Char
  line_num : Nat
  file_location : List Char
  category : List Char
  meta : FindingMeta
  deriving DecidableEq

/-! ## `sigscan.patterns.base`

A compiled `re.Pattern` is modelled as its source text plus an abstract
matcher: `matcher text` is the list of `m.group(0)` values produced by
`rx.finditer(text)`, in order.  The `re` engine itself is a standard
library collaborator; every gating claim below is proved for all
matchers. -/

structure Rule where
  pattern : List Char
  matcher : List Char → List (List Char)

/-- The per-class configuration of a `PatternPlugin` subclass
(`NAME`, `CATEGORY`, `WHITELIST`, `BLACKLIST`, `REGEXES`). -/
structure PatternCfg where
  name : List Char
  category : List Char
  whitelist : List (List Char)
  blacklist : List (List Char)
  regexes : List Rule

/-- The `Finding(...)` constructed in `PatternPlugin.process_record` for a
match value `val` of rule `rule`. -/
def mkBaseFinding (cfg : PatternCfg) (r : ParsedRecord) (rule : Rule)
    (val : List Char) : Finding :=
  { secret := if cfg.category = "secrets".toList then some val else none
    context := r.context
    line_num := r.line_num
    file_location := r.file_path
    category := cfg.category
    meta := .patternMeta rule.pattern }

/-- The regex loop of `PatternPlugin.process_record`: for every rule, every
match whose value contains no whitelist substring becomes a Finding. -/
def regexStage (cfg : PatternCfg) (r : ParsedRecord) : List Finding :=
  cfg.regexes.flatMap fun rule =>
    ((rule.matcher r.text).filter
        (fun val => !containsAny cfg.whitelist val)).map
      (mkBaseFinding cfg r rule)

/-- `PatternPlugin.process_record`, as the list of Findings appended to
`self.findings` for one record: blacklisted text returns early with no
Findings, otherwise the regex loop runs. -/
def process_record (cfg : PatternCfg) (r : ParsedRecord) : List Finding :=
  if containsAny cfg.blacklist r.text then [] else regexStage cfg r

/-! ## `sigscan.core.utils`: tokenizer and entropy -/

/-- The character class of `TOKEN_RE = [A-Za-z0-9_\-\/\.\:\?\&\=\+\$]{8,}`. -/
def isTokenChar (c : Char) : Bool :=
  (('A' ≤ c ∧ c ≤ 'Z') ∨ ('a' ≤ c ∧ c ≤ 'z') ∨ ('0' ≤ c ∧ c ≤ '9')
    ∨ c ∈ (['_', '-', '/', '.', ':', '?', '&', '=', '+', '$'] : List Char) :
    Bool)

/-- Maximal runs of token characters, left to right; `acc` is the
(reversed) run currently being read. -/
def tokenRunsAux : List Char → List Char → List (List Char)
  | [], [] => []
  | [], acc => [acc.reverse]
  | c :: rest, acc =>
    if isTokenChar c then tokenRunsAux rest (c :: acc)
    else if acc.isEmpty then tokenRunsAux rest []
    else acc.reverse :: tokenRunsAux rest []

/-- Maximal runs of token characters, left to right. -/
def tokenRuns (s : List Char) : List (List Char) := tokenRunsAux s []

/-- `TOKEN_RE.finditer(text)` match values: since the pattern is a greedy
character class repeated at least 8 times, its non-overlapping matches are
exactly the maximal token-character runs of length ≥ 8. -/
def tokenize (s : List Char) : List (List Char) :=
  (tokenRuns s).filter fun t => 8 ≤ t.length

/-- Character counts of a string (the `Counter` in `shannon_entropy`). -/
def charCounts (s : List Char) : List Nat :=
  s.dedup.map fun a => s.count a

/-- Decides `shannon_entropy s ≥ 3.5` exactly.  With `n = |s|` and counts
`c_i`, `H = -Σ (c_i/n)·log2(c_i/n) = log2(n^n / Π c_i^c_i) / n`, so
`H ≥ 3.5  ↔  n^(2n) ≥ 2^(7n) · (Π c_i^c_i)^2` (and `H = 0 < 3.5` for the
empty string). -/
def shannonEntropyGe35 (s : List Char) : Bool :=
  decide (0 < s.length ∧
    2 ^ (7 * s.length) * ((charCounts s).map fun c => c ^ c).prod ^ 2 ≤
      s.length ^ (2 * s.length))

/-- `shannon_entropy(s)` itself, as the real number the Python floats
approximate: `0.0` for the empty string, else
`-sum((c/length) * log2(c/length) for c in Counter(s).values())`.
Specification-level only (the executable embedding decides the 3.5
threshold via `shannonEntropyGe35`, proved equivalent below). -/
noncomputable def shannonEntropyReal (s : List Char) : ℝ :=
  if s.length = 0 then 0
  else -(((charCounts s).map fun c : Nat =>
      ((c : ℝ) / (s.length : ℝ)) * Real.logb 2 ((c : ℝ) / (s.length : ℝ))).sum)

/-! ## `sigscan.patterns.secrets` -/

/-- `SecretsPlugin.WHITELIST`. -/
def SECRETS_WHITELIST : List (List Char) :=
  ["example".toList, "placeholder".toList, "loremipsum".toList]

/-- `SecretsPlugin.BLACKLIST` (shipped empty). -/
def SECRETS_BLACKLIST : List (List Char) := []

/-- `SecretsPlugin.ENTROPY_MIN_LENGTH`. -/
def ENTROPY_MIN_LENGTH : Nat := 20

/-- `SecretsPlugin.ENTROPY_MAX_TOKENS_PER_LINE`. -/
def ENTROPY_MAX_TOKENS_PER_LINE : Nat := 10

/-- The `Finding(...)` built in the entropy loop of
`SecretsPlugin.process_record`. -/
def mkEntropyFinding (r : ParsedRecord) (token : List Char) : Finding :=
  { secret := some token
    context := r.context
    line_num := r.line_num
    file_location := r.file_path
    category := "secrets".toList
    meta := .entropyMeta token }

/-- The `for m in TOKEN_RE.finditer(text)` loop with its `hits` counter:
short tokens and whitelisted tokens are skipped, a token of entropy ≥ 3.5
yields a Finding, and the loop breaks once `hits` reaches the cap. -/
def entropyLoop (whitelist : List (List Char)) (r : ParsedRecord) :
    List (List Char) → Nat → List Finding
  | [], _ => []
  | tok :: rest, hits =>
    if tok.length < ENTROPY_MIN_LENGTH then entropyLoop whitelist r rest hits
    else if containsAny whitelist tok then entropyLoop whitelist r rest hits
    else if shannonEntropyGe35 tok then
      let f := mkEntropyFinding r tok
      if ENTROPY_MAX_TOKENS_PER_LINE ≤ hits + 1 then [f]
      else f :: entropyLoop whitelist r rest (hits + 1)
    else entropyLoop whitelist r rest hits

/-- The entropy stage of `SecretsPlugin.process_record`: skipped entirely
when the lowercased text contains "test", otherwise the token loop runs
from `hits = 0`. -/
def entropyStage (whitelist : List (List Char)) (r : ParsedRecord) :
    List Finding :=
  if strContains (lowerStr r.text) "test".toList then []
  else entropyLoop whitelist r (tokenize r.text) 0

/-- `SecretsPlugin.process_record`: the base regex stage
(`super().process_record`) followed by the entropy stage. -/
def secrets_process_record (cfg : PatternCfg) (r : ParsedRecord) :
    List Finding :=
  process_record cfg r ++ entropyStage cfg.whitelist r

/-- The `SecretsPlugin` class configuration; its compiled `REGEXES` are
abstracted as `rules` (the `re` engine is external). -/
def secretsCfg (rules : List Rule) : PatternCfg :=
  { name := "secrets".toList
    category := "secrets".toList
    whitelist := SECRETS_WHITELIST
    blacklist := SECRETS_BLACKLIST
    regexes := rules }

/-! ## `sigscan.core.utils`: binary detection and safe reading

Bytes are `Nat` values `< 256`.  `bytes.decode('utf-8', errors='strict')`
is modelled by `utf8Decode`, a full RFC 3629 decoder: it rejects overlong
encodings, surrogates, code points above `0x10FFFF` and truncated
sequences, exactly as CPython's strict UTF-8 codec does. -/

/-- The tail of a two-byte UTF-8 sequence led by `b1` (`0xC2–0xDF`):
one continuation byte, then decoding continues via `k`. -/
def utf8Tail2 (k : List Nat → Option (List Char)) (b1 : Nat) :
    List Nat → Option (List Char)
  | b2 :: rest2 =>
    if 0x80 ≤ b2 ∧ b2 ≤ 0xBF then
      (k rest2).map (Char.ofNat ((b1 - 0xC0) * 0x40 + (b2 - 0x80)) :: ·)
    else none
  | [] => none

/-- The tail of a three-byte UTF-8 sequence led by `b1` (`0xE0–0xEF`):
the second byte's window excludes overlong encodings (`0xE0`) and
surrogates (`0xED`). -/
def utf8Tail3 (k : List Nat → Option (List Char)) (b1 : Nat) :
    List Nat → Option (List Char)
  | b2 :: b3 :: rest3 =>
    if ((if b1 = 0xE0 then 0xA0 else 0x80) ≤ b2 ∧
          b2 ≤ (if b1 = 0xED then 0x9F else 0xBF)) ∧
        (0x80 ≤ b3 ∧ b3 ≤ 0xBF) then
      (k rest3).map
        (Char.ofNat ((b1 - 0xE0) * 0x1000 + (b2 - 0x80) * 0x40 + (b3 - 0x80)) :: ·)
    else none
  | _ => none

/-- The tail of a four-byte UTF-8 sequence led by `b1` (`0xF0–0xF4`):
the second byte's window excludes overlong encodings (`0xF0`) and code
points above `0x10FFFF` (`0xF4`). -/
def utf8Tail4 (k : List Nat → Option (List Char)) (b1 : Nat) :
    List Nat → Option (List Char)
  | b2 :: b3 :: b4 :: rest4 =>
    if ((if b1 = 0xF0 then 0x90 else 0x80) ≤ b2 ∧
          b2 ≤ (if b1 = 0xF4 then 0x8F else 0xBF)) ∧
        (0x80 ≤ b3 ∧ b3 ≤ 0xBF) ∧ (0x80 ≤ b4 ∧ b4 ≤ 0xBF) then
      (k rest4).map
        (Char.ofNat ((b1 - 0xF0) * 0x40000 + (b2 - 0x80) * 0x1000 +
          (b3 - 0x80) * 0x40 + (b4 - 0x80)) :: ·)
    else none
  | _ => none

/-- Strict UTF-8 decoding with explicit fuel (one unit per decoded code
point; every code point consumes at least one byte, so fuel equal to the
byte count never runs out on the recursion path). -/
def utf8DecodeFuel : Nat → List Nat → Option (List Char)
  | _, [] => some []
  | 0, _ :: _ => none
  | fuel + 1, b1 :: rest =>
    if b1 < 0x80 then (utf8DecodeFuel fuel rest).map (Char.ofNat b1 :: ·)
    else if b1 < 0xC2 then none
    else if b1 ≤ 0xDF then utf8Tail2 (utf8DecodeFuel fuel) b1 rest
    else if b1 ≤ 0xEF then utf8Tail3 (utf8DecodeFuel fuel) b1 rest
    else if b1 ≤ 0xF4 then utf8Tail4 (utf8DecodeFuel fuel) b1 rest
    else none

/-- Strict UTF-8 decoding of a byte list into characters, rejecting
overlong encodings, surrogates, out-of-range code points and truncated
sequences; `none` models `UnicodeDecodeError` from
`bytes.decode('utf-8', errors='strict')`. -/
def utf8Decode (data : List Nat) : Option (List Char) :=
  utf8DecodeFuel data.length data

/-- `JAVA_SERIAL_MAGIC = b"\xac\xed"`. -/
def JAVA_SERIAL_MAGIC : List Nat := [0xAC, 0xED]

/-- Membership in `BINARY_BYTES = bytes(range(0, 32)) + b"\x7f"`,
excluding tab/LF/CR as in the control-byte count. -/
def isControlByte (b : Nat) : Bool :=
  (b < 32 ∨ b = 0x7F : Bool) ∧ !(b = 9 ∨ b = 10 ∨ b = 13 : Bool)

/-- `is_likely_binary(data)` with the default thresholds 0.30 and 0.60;
the float ratio comparisons `control/total > 0.30` and `high/total > 0.60`
are taken exactly (cross-multiplied). -/
def is_likely_binary (data : List Nat) : Bool :=
  if data.length = 0 then false
  else if 0 ∈ data then true
  else if JAVA_SERIAL_MAGIC.isPrefixOf data then true
  else if 10 * data.countP isControlByte > 3 * data.length then true
  else if 10 * data.countP (fun b => decide (0x80 ≤ b)) > 6 * data.length then true
  else if (utf8Decode data).isNone then true
  else false

/-- Default `max_bytes` of `read_text_safely`. -/
def MAX_BYTES : Nat := 20000000

/-- The candidate loop of `read_text_safely`: the charset guess
(`chardet.detect` plus a strict decode with the guessed encoding) is the
external collaborator `guess` — it returns `some s` when chardet produced
an encoding that strictly decodes `data` to `s`, and `none` when there is
no guess or the guessed decode raised — after which the `'utf-8'`
candidate is tried strictly; `none` is the loop's final `return None`. -/
def decodeWithCandidates (guess : List Nat → Option (List Char))
    (data : List Nat) : Option (List Char) :=
  match guess data with
  | some s => some s
  | none => utf8Decode data

/-- `read_text_safely(path, max_bytes)` on a file whose byte content is
`data`: the capped read, the binary gate on the 4096-byte head and on the
full capped read, then the candidate decode loop. -/
def read_text_safely (guess : List Nat → Option (List Char)) (maxBytes : Nat)
    (data : List Nat) : Option (List Char) :=
  let head := data.take (min 4096 maxBytes)
  if is_likely_binary head then none
  else
    let trunc := head ++ (data.drop head.length).take (maxBytes - head.length)
    if is_likely_binary trunc then none
    else decodeWithCandidates guess trunc

/-- `iter_lines(text)`: iterating `io.StringIO(text)` and stripping the
trailing newline of each yielded chunk.  `""` yields no lines; a trailing
`'\n'` does not open a final empty line. -/
def iterLinesAux : List Char → List Char → List (List Char)
  | [], [] => []
  | [], acc => [acc.reverse]
  | c :: rest, acc =>
    if c = '\n' then acc.reverse :: iterLinesAux rest []
    else iterLinesAux rest (c :: acc)

/-- `iter_lines` from `core/utils.py`. -/
def iter_lines (text : List Char) : List (List Char) := iterLinesAux text []

/-- The line-break characters recognised by Python `str.splitlines`. -/
def isSplitlinesBreak (c : Char) : Bool :=
  c.toNat ∈ ([0x0A, 0x0D, 0x0B, 0x0C, 0x1C, 0x1D, 0x1E,
              0x85, 0x2028, 0x2029] : List Nat)

/-- Python `str.splitlines()` (no trailing empty line; `"\r\n"` counts as
one break). -/
def splitlinesAux : List Char → List Char → List (List Char)
  | [], [] => []
  | [], acc => [acc.reverse]
  | '\r' :: '\n' :: rest, acc => acc.reverse :: splitlinesAux rest []
  | c :: rest, acc =>
    if isSplitlinesBreak c then acc.reverse :: splitlinesAux rest []
    else splitlinesAux rest (c :: acc)

/-- Python `str.splitlines()`. -/
def splitlinesPy (text : List Char) : List (List Char) := splitlinesAux text []

/-! ## Parsers (`sigscan.parsers`) -/

/-- `enumerate(lines, start=k)` packed into `ParsedRecord`s with
`text = context = line`, as every parser does. -/
def numberRecords (p : List Char) (k : Nat) : List (List Char) → List ParsedRecord
  | [] => []
  | l :: ls => ⟨p, k, l, l⟩ :: numberRecords p (k + 1) ls

/-- `TextParser.parse`: safe read (default cap), then one record per
physical line via `iter_lines`, numbered from 1. -/
def textParse (guess : List Nat → Option (List Char)) (p : List Char)
    (data : List Nat) : List ParsedRecord :=
  match read_text_safely guess MAX_BYTES data with
  | none => []
  | some content => numberRecords p 1 (iter_lines content)

/-- A parsed JSON value as `json.loads` returns it: objects keep insertion
order, leaves carry their Python `str()` rendering. -/
inductive Json where
  | scalar (repr : List Char)
  | arr (items : List Json)
  | obj (fields : List (List Char × Json))

/-- `".".join(path)`. -/
def joinDots : List (List Char) → List Char
  | [] => []
  | [p] => p
  | p :: ps => p ++ '.' :: joinDots ps

mutual
/-- `_flatten_json(obj, path, out)`: pre-order walk appending
`f"{'.'.join(path)}: {obj}"` for each leaf. -/
def flattenJson : Json → List (List Char) → List (List Char)
  | .scalar s, path => [joinDots path ++ ':' :: ' ' :: s]
  | .arr items, path => flattenArr items 0 path
  | .obj fields, path => flattenObj fields path

/-- The `list` branch of `_flatten_json`: children indexed by `str(idx)`. -/
def flattenArr : List Json → Nat → List (List Char) → List (List Char)
  | [], _, _ => []
  | v :: rest, idx, path =>
    flattenJson v (path ++ [(Nat.repr idx).toList]) ++ flattenArr rest (idx + 1) path

/-- The `dict` branch of `_flatten_json`: children keyed in order. -/
def flattenObj : List (List Char × Json) → List (List Char) → List (List Char)
  | [], _ => []
  | (k, v) :: rest, path => flattenJson v (path ++ [k]) ++ flattenObj rest path
end

/-- `JSONParser.parse`: safe read; `json.loads` (external, abstracted as
`loads`, `none` modelling a raised exception) then the flattened walk
numbered from 1, or on failure the `splitlines` fallback numbered
from 1. -/
def jsonParse (guess : List Nat → Option (List Char))
    (loads : List Char → Option Json) (p : List Char) (data : List Nat) :
    List ParsedRecord :=
  match read_text_safely guess MAX_BYTES data with
  | none => []
  | some content =>
    match loads content with
    | some v => numberRecords p 1 (flattenJson v [])
    | none => numberRecords p 1 (splitlinesPy content)

/-- An XML element tree (tag, own text, children), as
`xml.etree.ElementTree.fromstring` returns it. -/
inductive Xml where
  | elem (tag : List Char) (text : List Char) (children : List Xml)

/-- The characters Python `str.isspace` accepts (`str.strip()` strips
exactly these from both ends). -/
def isPySpace (c : Char) : Bool :=
  c.toNat ∈ ([0x09, 0x0A, 0x0B, 0x0C, 0x0D, 0x1C, 0x1D, 0x1E, 0x1F, 0x20,
              0x85, 0xA0, 0x1680, 0x2000, 0x2001, 0x2002, 0x2003, 0x2004,
              0x2005, 0x2006, 0x2007, 0x2008, 0x2009, 0x200A, 0x2028,
              0x2029, 0x202F, 0x205F, 0x3000] : List Nat)

/-- Python `str.strip()`. -/
def stripPy (s : List Char) : List Char :=
  ((s.dropWhile isPySpace).reverse.dropWhile isPySpace).reverse

mutual
/-- `_iter_elements(e, path)`: pre-order walk yielding
`(path + "/" + tag, stripped own text)` for elements with non-empty
stripped text. -/
def iterElements : Xml → List Char → List (List Char × List Char)
  | .elem tag text children, path =>
    let current := path ++ '/' :: tag
    (if stripPy text ≠ [] then [(current, stripPy text)] else []) ++
      iterElementsList children current

/-- The `for child in e` recursion of `_iter_elements`. -/
def iterElementsList : List Xml → List Char → List (List Char × List Char)
  | [], _ => []
  | c :: rest, cur => iterElements c cur ++ iterElementsList rest cur
end

/-- `XMLParser.parse`: safe read; `ET.fromstring` (external, abstracted as
`fromstring`) then one record per yielded `f"{xpath}: {text}"` numbered in
emission order, or on failure the `splitlines` fallback. -/
def xmlParse (guess : List Nat → Option (List Char))
    (fromstring : List Char → Option Xml) (p : List Char) (data : List Nat) :
    List ParsedRecord :=
  match read_text_safely guess MAX_BYTES data with
  | none => []
  | some content =>
    match fromstring content with
    | some root =>
      numberRecords p 1
        ((iterElements root []).map fun pr => pr.1 ++ ':' :: ' ' :: pr.2)
    | none => numberRecords p 1 (splitlinesPy content)

/-! ## `sigscan.core.scanner`: the file walker

The directory tree is an inductive; `Path.rglob("*")` enumerates every
descendant entry (directories included), which `_iter_files` then filters
entry by entry.  `fnmatch.fnmatch` is a standard-library collaborator and
is a parameter; `stat` is modelled as always succeeding with the stored
size (a stat failure only drops the file, which no claim here exercises). -/

/-- One node of the scanned directory tree. -/
inductive FSEntry where
  | file (name : List Char) (size : Nat)
  | dir (name : List Char) (children : List FSEntry)

/-- One entry yielded by `rglob("*")`: its path below the root (as the
list of path components), whether it is a directory, its base name and
(for files) its `st_size`. -/
structure RawEntry where
  path : List (List Char)
  isDir : Bool
  name : List Char
  size : Nat
  deriving DecidableEq

mutual
/-- All entries of one subtree, the subtree's own entry first. -/
def rglobTree : FSEntry → List (List Char) → List RawEntry
  | .file n sz, pre => [⟨pre ++ [n], false, n, sz⟩]
  | .dir n cs, pre => ⟨pre ++ [n], true, n, 0⟩ :: rglobList cs (pre ++ [n])

/-- All entries of a list of siblings, in order. -/
def rglobList : List FSEntry → List (List Char) → List RawEntry
  | [], _ => []
  | e :: rest, pre => rglobTree e pre ++ rglobList rest pre
end

/-- The walker's configuration slice of `DirectoryScanner`. -/
structure WalkCfg where
  include_globs : List (List Char)
  exclude_dirs : List (List Char)
  max_file_size : Nat

/-- `DirectoryScanner._iter_files`, filtering the `rglob` stream of the
root's children exactly as the source loop does: a directory entry is
skipped whether or not its name is excluded (both branches `continue`);
a file entry is yielded when its base name matches an include glob and its
size is within bounds. -/
def iter_files (fnmatchFn : List Char → List Char → Bool) (cfg : WalkCfg)
    (rootChildren : List FSEntry) : List (List (List Char)) :=
  (rglobList rootChildren []).filterMap fun e =>
    if e.isDir then
      if e.name ∈ cfg.exclude_dirs then none else none
    else if cfg.include_globs.any fun pat => fnmatchFn e.name pat then
      if e.size ≤ cfg.max_file_size then some e.path else none
    else none

/-- A candidate path `p` (components below the root, the last being the
file's base name) lies under a directory whose name is in `excl`: some
non-final component is an excluded name. -/
def underExcludedDir (excl : List (List Char)) (p : List (List Char)) : Bool :=
  p.dropLast.any fun comp => comp ∈ excl

/-! ## `sigscan.core.scanner`: the scan engine

`_scan_file` and `scan` are modelled by the trace of lifecycle hook
invocations they perform.  Plugins are identified by name; a parse that
raises mid-file is a `FileJob` whose `records` are those yielded before
the exception and whose `fails` flag is set.  The worker pool runs each
file on one worker; hook counts and per-file traces do not depend on
completion order, so the trace lists jobs in submission order. -/

/-- One candidate file as the engine sees it: its path, the records its
parser yields, and whether the parse/match loop raises after them. -/
structure FileJob where
  path : List Char
  records : List ParsedRecord
  fails : Bool
  deriving DecidableEq

/-- A lifecycle hook invocation on one plugin. -/
inductive Event where
  | beginHook (plugin : List Char)
  | beginFile (plugin : List Char) (path : List Char)
  | procRec (plugin : List Char) (r : ParsedRecord)
  | endFile (plugin : List Char) (path : List Char)
  | endHook (plugin : List Char)
  deriving DecidableEq

/-- The `try` body of `_scan_file`: the records yielded before any
exception are streamed through every plugin; the Bool is whether an
exception escapes the body (it is caught by the `except` clause and only
logged). -/
def scanFileBody (plugins : List (List Char)) (j : FileJob) :
    List Event × Bool :=
  (j.records.flatMap fun r => plugins.map (Event.procRec · r), j.fails)

/-- `DirectoryScanner._scan_file`: `begin_file` on every plugin, the try
body (whose exception, if any, is caught), then — in the `finally` block —
`end_file` on every plugin. -/
def scanFile (plugins : List (List Char)) (j : FileJob) : List Event :=
  let body := scanFileBody plugins j
  (plugins.map (Event.beginFile · j.path)) ++ body.1 ++
    (plugins.map (Event.endFile · j.path))

/-- `DirectoryScanner.scan` over the materialised candidate list: an empty
list returns before any hook fires; otherwise `begin()` on every plugin,
every file's `_scan_file` (each per-file failure caught), and — in the
`finally` block — `end()` on every plugin. -/
def scan (plugins : List (List Char)) (jobs : List FileJob) : List Event :=
  if jobs.length = 0 then []
  else
    (plugins.map Event.beginHook) ++ (jobs.flatMap (scanFile plugins)) ++
      (plugins.map Event.endHook)

/-- `DirectoryScanner.scan` wired to the walker: the candidate list is
`_iter_files()`, each path turned into its job by the (parser-dependent)
`jobOf`. -/
def scanDir (fnmatchFn : List Char → List Char → Bool) (cfg : WalkCfg)
    (rootChildren : List FSEntry) (plugins : List (List Char))
    (jobOf : List (List Char) → FileJob) : List Event :=
  scan plugins ((iter_files fnmatchFn cfg rootChildren).map jobOf)

/-! ## `sigscan.core.loader` and `sigscan.cli` -/

/-- Python `str.strip()` on selector tokens (they are ASCII). -/
def stripLower (s : List Char) : List Char := lowerStr (stripPy s)

/-- Keep the first occurrence of every key: inserting into a `dict` keyed
by token keeps one entry per key, at its first position; `seen` holds the
keys already inserted. -/
def dedupKeepFirstAux (seen : List (List Char)) :
    List (List Char) → List (List Char)
  | [] => []
  | a :: t =>
    if a ∈ seen then dedupKeepFirstAux seen t
    else a :: dedupKeepFirstAux (a :: seen) t

/-- Keep the first occurrence of every key. -/
def dedupKeepFirst (l : List (List Char)) : List (List Char) :=
  dedupKeepFirstAux [] l

/-- Python `selector.split(",")`. -/
def splitCommas : List Char → List Char → List (List Char)
  | [], acc => [acc.reverse]
  | c :: rest, acc =>
    if c = ',' then acc.reverse :: splitCommas rest []
    else splitCommas rest (c :: acc)

/-- `select_pattern_plugins(all_plugins, selector)` on the registry's key
list: `"all"`/`"*"` select everything, otherwise the non-empty stripped
tokens that are registry keys, first occurrence each. -/
def select_pattern_plugins (allPlugins : List (List Char))
    (selector : List Char) : List (List Char) :=
  let sel := stripLower selector
  if sel = "all".toList ∨ sel = "*".toList then allPlugins
  else
    dedupKeepFirst
      (((splitCommas sel []).map stripPy).filter fun t =>
        t ≠ [] ∧ t ∈ allPlugins)

/-- The observable outcome of `cli.run_dir`. -/
structure RunResult where
  exit_code : Nat
  scan_started : Bool
  artifacts_written : Bool
  out_dir_created : Bool
  deriving DecidableEq

/-- `cli.run_dir`: the output directory is created first; then plugins are
discovered and selected; an empty selection prints an error and returns
exit status 2 before any scanner is built; otherwise the scan runs and the
Reporter writes every artifact, returning 0. -/
def run_dir (allPlugins : List (List Char)) (selector : List Char) :
    RunResult :=
  let activated := select_pattern_plugins allPlugins selector
  if activated = [] then
    { exit_code := 2, scan_started := false, artifacts_written := false
      out_dir_created := true }
  else
    { exit_code := 0, scan_started := true, artifacts_written := true
      out_dir_created := true }

/-! ## Derived predicates and concrete evaluation inputs -/

/-- A token the entropy loop turns into a Finding: length at least
`ENTROPY_MIN_LENGTH`, no whitelist substring, entropy at least 3.5. -/
def entropyQualifies (whitelist : List (List Char)) (tok : List Char) : Bool :=
  decide (ENTROPY_MIN_LENGTH ≤ tok.length) && !containsAny whitelist tok &&
    shannonEntropyGe35 tok

/-- A record used to exercise the entropy stage: one qualifying
high-entropy token (20 distinct characters), no "test". -/
def entropyRecord : ParsedRecord :=
  ⟨"cfg.env".toList, 3, "key: ABCDEFGHIJKLMNOPQRST".toList,
    "key: ABCDEFGHIJKLMNOPQRST".toList⟩

/-- A record whose lowercased text contains "test". -/
def testRecord : ParsedRecord :=
  ⟨"cfg.env".toList, 4, "TESTDATA ABCDEFGHIJKLMNOPQRST".toList,
    "TESTDATA ABCDEFGHIJKLMNOPQRST".toList⟩

/-- A secrets-style configuration whose blacklist is non-empty (the base
class is configured per subclass; the shipped `SecretsPlugin` ships an
empty blacklist). -/
def blacklistedSecretsCfg : PatternCfg :=
  { secretsCfg [] with blacklist := ["forbidden".toList] }

/-- A record containing the blacklisted substring and a qualifying
high-entropy token. -/
def blacklistedRecord : ParsedRecord :=
  ⟨"app.cfg".toList, 7, "forbidden ABCDEFGHIJKLMNOPQRST".toList,
    "forbidden ABCDEFGHIJKLMNOPQRST".toList⟩

/-- A rule whose matcher reports one fixed AWS-style match (a stand-in for
`AKIA[0-9A-Z]{16}` on a text containing that key). -/
def akiaRule : Rule :=
  ⟨"AKIA[0-9A-Z]{16}".toList, fun _ => ["AKIA0123456789ABCDEF".toList]⟩

/-- A secrets configuration carrying `akiaRule` only. -/
def akiaCfg : PatternCfg := secretsCfg [akiaRule]

/-- A record containing the AWS-style key matched by `akiaRule`. -/
def akiaRecord : ParsedRecord :=
  ⟨"a.txt".toList, 2, "id = AKIA0123456789ABCDEF x".toList,
    "id = AKIA0123456789ABCDEF x".toList⟩

/-- A 20 MB run of `'a'` bytes followed by a NUL byte: the NUL lies beyond
the `read_text_safely` byte cap. -/
def bigData : List Nat := List.replicate MAX_BYTES 97 ++ [0]

/-- A walker configuration excluding `.git`, as the CLI defaults do. -/
def c1Cfg : WalkCfg :=
  ⟨["*".toList], [".git".toList], 5000000⟩

/-- A root with one excluded directory holding one small matching file. -/
def c1Tree : List FSEntry :=
  [.dir ".git".toList [.file "creds.txt".toList 10]]

/-- `fnmatch.fnmatch(name, "*")`: the default include glob matches every
base name. -/
def fnmatchStar (_name _pat : List Char) : Bool := true

/-- A root whose only entry is an empty, non-excluded directory: the
walker yields no candidate files. -/
def emptyWalkTree : List FSEntry := [.dir "sub".toList []]

/-- A job whose parse yields one record and then raises. -/
def jobA : FileJob := ⟨"a.txt".toList, [entropyRecord], true⟩

/-- A job whose parse yields nothing and succeeds. -/
def jobB : FileJob := ⟨"b.txt".toList, [], false⟩

/-- Two active plugins, by name. -/
def twoPlugins : List (List Char) := ["secrets".toList, "web".toList]

/-! # Theorems -/

/-! ## Entropy stage: structure lemmas -/

theorem entropyLoop_eq_take (wl : List (List Char)) (r : ParsedRecord)
    (toks : List (List Char)) :
    ∀ hits : Nat, hits < ENTROPY_MAX_TOKENS_PER_LINE →
      entropyLoop wl r toks hits =
        ((toks.filter (entropyQualifies wl)).take
            (ENTROPY_MAX_TOKENS_PER_LINE - hits)).map (mkEntropyFinding r) := by
  induction toks with
  | nil => intro hits _; simp [entropyLoop]
  | cons tok rest ih =>
    intro hits hh
    by_cases h1 : tok.length < ENTROPY_MIN_LENGTH
    · have hq : entropyQualifies wl tok = false := by
        simp only [entropyQualifies, Bool.and_eq_false_iff, decide_eq_false_iff_not]
        left; omega
      simp only [entropyLoop, if_pos h1, List.filter_cons, hq, Bool.false_eq_true,
        if_neg (Bool.false_ne_true)]
      exact ih hits hh
    · by_cases h2 : containsAny wl tok = true
      · have hq : entropyQualifies wl tok = false := by
          simp [entropyQualifies, h2]
        simp only [entropyLoop, if_neg h1, if_pos h2, List.filter_cons, hq,
          Bool.false_eq_true, if_neg (Bool.false_ne_true)]
        exact ih hits hh
      · rw [Bool.not_eq_true] at h2
        by_cases h3 : shannonEntropyGe35 tok = true
        · have hq : entropyQualifies wl tok = true := by
            simp only [entropyQualifies, h2, h3, Bool.not_false, Bool.and_true]
            simp only [Bool.and_self, decide_eq_true_eq]
            omega
          by_cases h4 : ENTROPY_MAX_TOKENS_PER_LINE ≤ hits + 1
          · have hcap : ENTROPY_MAX_TOKENS_PER_LINE - hits = 1 := by omega
            simp [entropyLoop, if_neg h1, h2, h3, if_pos h4, List.filter_cons, hq,
              hcap]
          · have hcap : ENTROPY_MAX_TOKENS_PER_LINE - hits =
                (ENTROPY_MAX_TOKENS_PER_LINE - (hits + 1)) + 1 := by omega
            simp only [entropyLoop, if_neg h1, h2, if_neg (Bool.false_ne_true), h3,
              if_pos rfl, if_neg h4, List.filter_cons, hq, if_pos rfl, hcap,
              List.take_succ_cons, List.map_cons, if_true,
              ih (hits + 1) (by omega)]
        · have hq : entropyQualifies wl tok = false := by
            simp [entropyQualifies, h3]
          simp only [entropyLoop, if_neg h1, h2, if_neg (Bool.false_ne_true), h3,
            if_neg (Bool.false_ne_true), List.filter_cons, hq,
            if_neg (Bool.false_ne_true)]
          exact ih hits hh

theorem entropyLoop_mem {wl : List (List Char)} {r : ParsedRecord}
    {toks : List (List Char)} {hits : Nat} {f : Finding}
    (h : f ∈ entropyLoop wl r toks hits) :
    ∃ tok, containsAny wl tok = false ∧ f = mkEntropyFinding r tok := by
  induction toks generalizing hits with
  | nil => simp [entropyLoop] at h
  | cons tok rest ih =>
    rw [entropyLoop] at h
    split_ifs at h with h1 h2 h3 h4
    · exact ih h
    · exact ih h
    · rcases List.mem_singleton.mp h with rfl
      exact ⟨tok, by rwa [Bool.not_eq_true] at h2, rfl⟩
    · rcases List.mem_cons.mp h with rfl | hmem
      · exact ⟨tok, by rwa [Bool.not_eq_true] at h2, rfl⟩
      · exact ih hmem
    · exact ih h

theorem entropyStage_mem {wl : List (List Char)} {r : ParsedRecord}
    {f : Finding} (h : f ∈ entropyStage wl r) :
    ∃ tok, containsAny wl tok = false ∧ f = mkEntropyFinding r tok := by
  rw [entropyStage] at h
  split_ifs at h with h1
  · simp at h
  · exact entropyLoop_mem h

theorem regexStage_mem {cfg : PatternCfg} {r : ParsedRecord} {f : Finding} :
    f ∈ regexStage cfg r ↔
      ∃ rule ∈ cfg.regexes, ∃ v ∈ rule.matcher r.text,
        containsAny cfg.whitelist v = false ∧ f = mkBaseFinding cfg r rule v := by
  simp only [regexStage, List.mem_flatMap, List.mem_map, List.mem_filter,
    Bool.not_eq_true']
  constructor
  · rintro ⟨rule, hrule, v, ⟨hv, hw⟩, rfl⟩
    exact ⟨rule, hrule, v, hv, hw, rfl⟩
  · rintro ⟨rule, hrule, v, hv, hw, rfl⟩
    exact ⟨rule, hrule, v, ⟨hv, hw⟩, rfl⟩

/-! ## Entropy: the decidable test agrees with the real Shannon entropy -/

theorem sum_map_sub {α : Type} (l : List α) (f g : α → ℝ) :
    (l.map fun x => f x - g x).sum = (l.map f).sum - (l.map g).sum := by
  induction l with
  | nil => simp
  | cons a t ih => simp [ih]; ring

theorem logb_prod_pow (l : List Nat) (hpos : ∀ c ∈ l, 0 < c) :
    Real.logb 2 ((l.map fun c : Nat => ((c : ℝ)) ^ c).prod) =
      (l.map fun c : Nat => (c : ℝ) * Real.logb 2 (c : ℝ)).sum := by
  induction l with
  | nil => simp
  | cons a t ih =>
    have ha : (0:ℝ) < (a:ℝ) := by
      have := hpos a (List.mem_cons_self _ _); exact_mod_cast this
    have hprodpos : (0:ℝ) < ((t.map fun c : Nat => ((c:ℝ)) ^ c).prod) := by
      apply List.prod_pos
      intro x hx
      rcases List.mem_map.mp hx with ⟨c, hc, rfl⟩
      have : (0:ℝ) < (c:ℝ) := by
        have := hpos c (List.mem_cons_of_mem _ hc); exact_mod_cast this
      positivity
    rw [List.map_cons, List.prod_cons,
      Real.logb_mul (by positivity) (ne_of_gt hprodpos),
      Real.logb_pow, ih (fun c hc => hpos c (List.mem_cons_of_mem _ hc)),
      List.map_cons, List.sum_cons]

theorem counts_pos (s : List Char) : ∀ c ∈ charCounts s, 0 < c := by
  intro c hc
  rcases List.mem_map.mp hc with ⟨a, ha, rfl⟩
  exact List.count_pos_iff.mpr (List.mem_dedup.mp ha)

theorem counts_sum (s : List Char) : (charCounts s).sum = s.length :=
  List.sum_map_count_dedup_eq_length s

theorem entropy_mul (s : List Char) (hne : s.length ≠ 0) :
    (s.length : ℝ) * shannonEntropyReal s =
      (s.length : ℝ) * Real.logb 2 (s.length : ℝ) -
        ((charCounts s).map fun c : Nat => (c : ℝ) * Real.logb 2 (c : ℝ)).sum := by
  have hn : (0:ℝ) < (s.length : ℝ) := by exact_mod_cast Nat.pos_of_ne_zero hne
  rw [shannonEntropyReal, if_neg hne]
  have hterm : ∀ c ∈ charCounts s,
      ((c : ℝ) / (s.length : ℝ)) * Real.logb 2 ((c : ℝ) / (s.length : ℝ)) =
        (1 / (s.length : ℝ)) * ((c : ℝ) * Real.logb 2 (c : ℝ)) -
          (Real.logb 2 (s.length : ℝ) / (s.length : ℝ)) * (c : ℝ) := by
    intro c hc
    have hcpos : (0:ℝ) < (c:ℝ) := by exact_mod_cast counts_pos s c hc
    rw [Real.logb_div (ne_of_gt hcpos) (ne_of_gt hn)]
    field_simp
    ring
  rw [List.map_congr_left hterm, sum_map_sub, List.sum_map_mul_left,
    List.sum_map_mul_left]
  have hcast : ((charCounts s).map fun c : Nat => (c : ℝ)).sum = (s.length : ℝ) := by
    rw [← Nat.cast_list_sum, counts_sum]
  rw [hcast]
  field_simp

/-- `shannonEntropyGe35` decides exactly `shannon_entropy s ≥ 3.5`: the
cross-multiplied natural-number test is equivalent to the real
comparison. -/
theorem shannonEntropyGe35_iff_real (s : List Char) :
    shannonEntropyGe35 s = true ↔ (7 / 2 : ℝ) ≤ shannonEntropyReal s := by
  by_cases hne : s.length = 0
  · rw [shannonEntropyReal, if_pos hne]
    simp [shannonEntropyGe35, hne]
  · set n : Nat := s.length with hndef
    set P : Nat := ((charCounts s).map fun c => c ^ c).prod with hPdef
    have hn0 : 0 < n := Nat.pos_of_ne_zero hne
    have hn : (0:ℝ) < (n : ℝ) := by exact_mod_cast hn0
    have hcpos := counts_pos s
    have hPpos : 0 < P := by
      rw [hPdef]
      apply List.prod_pos
      intro x hx
      rcases List.mem_map.mp hx with ⟨c, hc, rfl⟩
      exact pow_pos (hcpos c hc) c
    have hPR : (0:ℝ) < (P : ℝ) := by exact_mod_cast hPpos
    have hNn : (0:ℝ) < (n : ℝ) ^ n := pow_pos hn n
    have hlogP : Real.logb 2 (P : ℝ) =
        ((charCounts s).map fun c : Nat => (c : ℝ) * Real.logb 2 (c : ℝ)).sum := by
      rw [hPdef, Nat.cast_list_prod, List.map_map]
      have hmapeq : ((charCounts s).map ((fun x : Nat => (x : ℝ)) ∘ fun c => c ^ c)) =
          (charCounts s).map fun c : Nat => ((c : ℝ)) ^ c := by
        apply List.map_congr_left
        intro c _
        simp only [Function.comp]
        push_cast
        ring
      rw [hmapeq, logb_prod_pow _ hcpos]
    have hbool : (shannonEntropyGe35 s = true) ↔
        2 ^ (7 * n) * P ^ 2 ≤ n ^ (2 * n) := by
      rw [shannonEntropyGe35, decide_eq_true_eq]
      exact ⟨fun h => h.2, fun h => ⟨hn0, h⟩⟩
    calc shannonEntropyGe35 s = true
        ↔ 2 ^ (7 * n) * P ^ 2 ≤ n ^ (2 * n) := hbool
      _ ↔ (2:ℝ) ^ (7 * n) * (P:ℝ) ^ 2 ≤ ((n:ℝ)) ^ (2 * n) := by
            constructor
            · intro h; exact_mod_cast h
            · intro h; exact_mod_cast h
      _ ↔ (2:ℝ) ^ (7 * n) ≤ (((n:ℝ)) ^ n / (P:ℝ)) ^ 2 := by
            rw [div_pow, le_div_iff₀ (by positivity), ← pow_mul,
              Nat.mul_comm n 2]
      _ ↔ ((7 * n : ℕ) : ℝ) ≤ Real.logb 2 ((((n:ℝ)) ^ n / (P:ℝ)) ^ 2) := by
            rw [Real.le_logb_iff_rpow_le (by norm_num) (by positivity),
              Real.rpow_natCast]
      _ ↔ (n:ℝ) * (7 / 2) ≤ Real.logb 2 (((n:ℝ)) ^ n / (P:ℝ)) := by
            rw [Real.logb_pow]
            push_cast
            constructor
            · intro h; linarith
            · intro h; linarith
      _ ↔ (n:ℝ) * (7 / 2) + Real.logb 2 (P:ℝ) ≤ Real.logb 2 (((n:ℝ)) ^ n) := by
            rw [Real.logb_div (ne_of_gt hNn) (ne_of_gt hPR)]
            constructor
            · intro h; linarith
            · intro h; linarith
      _ ↔ (n:ℝ) * (7 / 2) ≤ (n:ℝ) * shannonEntropyReal s := by
            rw [Real.logb_pow, hlogP]
            have hmul := entropy_mul s hne
            rw [← hndef] at hmul
            constructor
            · intro h; linarith
            · intro h; linarith
      _ ↔ (7 / 2 : ℝ) ≤ shannonEntropyReal s := mul_le_mul_left hn

/-! ## C3 -/

/-- **C3**: for a Record whose lowercased text does not contain "test",
the Secrets entropy stage emits exactly one Finding (with metadata
`detector="entropy"` plus the token's entropy, here `entropyMeta`) for
each of the first at most 10 tokens, left to right, of length ≥ 20, free
of whitelist substrings and of Shannon entropy ≥ 3.5 bits per character —
later qualifying tokens are dropped; a Record whose lowercased text
contains "test" produces zero entropy Findings.  The final conjunct ties
the decidable qualification test to the real-valued Shannon entropy. -/
theorem secrets_entropy_stage_takes_first_ten (r : ParsedRecord) :
    (strContains (lowerStr r.text) "test".toList = false →
      entropyStage SECRETS_WHITELIST r =
        (((tokenize r.text).filter (entropyQualifies SECRETS_WHITELIST)).take
            ENTROPY_MAX_TOKENS_PER_LINE).map (mkEntropyFinding r)) ∧
    (strContains (lowerStr r.text) "test".toList = true →
      entropyStage SECRETS_WHITELIST r = []) ∧
    (∀ tok : List Char, entropyQualifies SECRETS_WHITELIST tok = true ↔
      (ENTROPY_MIN_LENGTH ≤ tok.length ∧
        containsAny SECRETS_WHITELIST tok = false ∧
        (7 / 2 : ℝ) ≤ shannonEntropyReal tok)) := by
  refine ⟨?_, ?_, ?_⟩
  · intro h
    rw [entropyStage, if_neg (by rw [h]; exact Bool.false_ne_true)]
    rw [entropyLoop_eq_take SECRETS_WHITELIST r (tokenize r.text) 0
      (by simp [ENTROPY_MAX_TOKENS_PER_LINE]), Nat.sub_zero]
  · intro h
    rw [entropyStage, if_pos h]
  · intro tok
    rw [entropyQualifies, Bool.and_eq_true, Bool.and_eq_true,
      decide_eq_true_eq, Bool.not_eq_true', shannonEntropyGe35_iff_real]
    tauto

theorem secrets_entropy_stage_takes_first_ten_witness :
    (strContains (lowerStr entropyRecord.text) "test".toList = false ∧
      entropyStage SECRETS_WHITELIST entropyRecord =
        [mkEntropyFinding entropyRecord "ABCDEFGHIJKLMNOPQRST".toList]) ∧
    (strContains (lowerStr testRecord.text) "test".toList = true ∧
      entropyStage SECRETS_WHITELIST testRecord = []) := by
  refine ⟨⟨by decide, ?_⟩, ⟨by decide, ?_⟩⟩
  · rw [(secrets_entropy_stage_takes_first_ten entropyRecord).1 (by decide)]
    decide
  · exact (secrets_entropy_stage_takes_first_ten testRecord).2.1 (by decide)

/-! ## C2 -/

/-- **C2** is false as stated: the Secrets entropy stage is not gated by
the blacklist.  With a non-empty blacklist on a secrets-style
configuration, a Record containing a blacklisted substring (and a
qualifying high-entropy token) still yields a Finding. -/
theorem secrets_entropy_ignores_blacklist :
    containsAny blacklistedSecretsCfg.blacklist blacklistedRecord.text = true ∧
    secrets_process_record blacklistedSecretsCfg blacklistedRecord ≠ [] := by
  constructor
  · decide
  · decide

/-- **C2** (amended): a Record containing a configured blacklist substring
yields zero Findings from the regex stage of every plugin (the base
`process_record` returns before matching); the Secrets `process_record`
then still runs its entropy stage, which the blacklist does not gate —
though the shipped `SecretsPlugin` blacklist is empty, so no shipped
configuration exhibits entropy Findings on blacklisted Records. -/
theorem blacklist_gates_regex_stage_only (cfg : PatternCfg) (r : ParsedRecord)
    (h : containsAny cfg.blacklist r.text = true) :
    process_record cfg r = [] ∧
    secrets_process_record cfg r = entropyStage cfg.whitelist r ∧
    SECRETS_BLACKLIST = [] := by
  refine ⟨by simp [process_record, h], ?_, rfl⟩
  simp [secrets_process_record, process_record, h]

theorem blacklist_gates_regex_stage_only_witness :
    containsAny blacklistedSecretsCfg.blacklist blacklistedRecord.text = true ∧
    (process_record blacklistedSecretsCfg blacklistedRecord = [] ∧
      secrets_process_record blacklistedSecretsCfg blacklistedRecord =
        entropyStage blacklistedSecretsCfg.whitelist blacklistedRecord ∧
      SECRETS_BLACKLIST = []) :=
  ⟨by decide,
    blacklist_gates_regex_stage_only blacklistedSecretsCfg blacklistedRecord
      (by decide)⟩

/-! ## C7 -/

/-- **C7**: for every Record processed by any plugin, no Finding is
emitted whose matched value (regex stage) or token (entropy stage)
contains a configured whitelist substring: every regex-stage Finding
arises from a match value with no whitelist substring, every
entropy-stage Finding from such a token, and any value stored in a
Finding's `secret` field is whitelist-free. -/
theorem findings_never_contain_whitelisted (cfg : PatternCfg)
    (r : ParsedRecord) :
    (∀ f ∈ process_record cfg r, ∃ rule ∈ cfg.regexes,
        ∃ v ∈ rule.matcher r.text,
          containsAny cfg.whitelist v = false ∧ f = mkBaseFinding cfg r rule v) ∧
    (∀ f ∈ entropyStage cfg.whitelist r, ∃ tok,
        containsAny cfg.whitelist tok = false ∧ f = mkEntropyFinding r tok) ∧
    (∀ f ∈ secrets_process_record cfg r, ∀ v, f.secret = some v →
        containsAny cfg.whitelist v = false) := by
  refine ⟨?_, fun f hf => entropyStage_mem hf, ?_⟩
  · intro f hf
    rw [process_record] at hf
    split_ifs at hf with hb
    · simp at hf
    · exact regexStage_mem.mp hf
  · intro f hf v hv
    rcases List.mem_append.mp hf with hbase | hent
    · rw [process_record] at hbase
      split_ifs at hbase with hb
      · simp at hbase
      · rcases regexStage_mem.mp hbase with ⟨rule, _, w, _, hw, rfl⟩
        simp only [mkBaseFinding] at hv
        by_cases hc : cfg.category = "secrets".toList
        · rw [if_pos hc] at hv
          cases hv
          exact hw
        · rw [if_neg hc] at hv
          cases hv
    · rcases entropyStage_mem hent with ⟨tok, htok, rfl⟩
      simp only [mkEntropyFinding] at hv
      cases hv
      exact htok

theorem findings_never_contain_whitelisted_witness :
    (∃ rule ∈ akiaCfg.regexes, ∃ v ∈ rule.matcher akiaRecord.text,
        containsAny akiaCfg.whitelist v = false ∧
        mkBaseFinding akiaCfg akiaRecord akiaRule "AKIA0123456789ABCDEF".toList =
          mkBaseFinding akiaCfg akiaRecord rule v) ∧
    (∃ tok, containsAny akiaCfg.whitelist tok = false ∧
        mkEntropyFinding entropyRecord "ABCDEFGHIJKLMNOPQRST".toList =
          mkEntropyFinding entropyRecord tok) ∧
    containsAny akiaCfg.whitelist "AKIA0123456789ABCDEF".toList = false := by
  refine ⟨?_, ?_, ?_⟩
  · exact (findings_never_contain_whitelisted akiaCfg akiaRecord).1
      (mkBaseFinding akiaCfg akiaRecord akiaRule "AKIA0123456789ABCDEF".toList)
      (by decide)
  · exact (findings_never_contain_whitelisted akiaCfg entropyRecord).2.1
      (mkEntropyFinding entropyRecord "ABCDEFGHIJKLMNOPQRST".toList)
      (by decide)
  · exact (findings_never_contain_whitelisted akiaCfg akiaRecord).2.2
      (mkBaseFinding akiaCfg akiaRecord akiaRule "AKIA0123456789ABCDEF".toList)
      (by decide) "AKIA0123456789ABCDEF".toList (by decide)

/-! ## C5 -/

theorem numberRecords_getElem (p : List Char) (ls : List (List Char)) :
    ∀ (k i : Nat) (rcd : ParsedRecord),
      (numberRecords p k ls)[i]? = some rcd → rcd.line_num = k + i := by
  induction ls with
  | nil => intro k i rcd h; simp [numberRecords] at h
  | cons l ls ih =>
    intro k i rcd h
    cases i with
    | zero =>
      simp only [numberRecords, List.getElem?_cons_zero, Option.some_inj] at h
      rw [← h]
      simp
    | succ n =>
      simp only [numberRecords, List.getElem?_cons_succ] at h
      have := ih (k + 1) n rcd h
      omega

/-- **C5**: a Finding's line index equals the 1-based position, within the
Record sequence the parser yielded, of the Record that produced it: the
`i`-th Record (0-based) of every parser carries `line_num = i + 1`
(physical line for Text, flattened-walk position for JSON, emission order
for XML, in both the parsed and the fallback branch), and every Finding a
plugin appends copies its Record's `line_num`. -/
theorem finding_line_index_is_record_position :
    (∀ guess p data i rcd, (textParse guess p data)[i]? = some rcd →
      rcd.line_num = i + 1) ∧
    (∀ guess loads p data i rcd, (jsonParse guess loads p data)[i]? = some rcd →
      rcd.line_num = i + 1) ∧
    (∀ guess fromstring p data i rcd,
      (xmlParse guess fromstring p data)[i]? = some rcd → rcd.line_num = i + 1) ∧
    (∀ cfg r f, f ∈ process_record cfg r → f.line_num = r.line_num) ∧
    (∀ cfg r f, f ∈ secrets_process_record cfg r → f.line_num = r.line_num) := by
  refine ⟨?_, ?_, ?_, ?_, ?_⟩
  · intro guess p data i rcd h
    rw [textParse] at h
    split at h
    · simp at h
    · have := numberRecords_getElem p _ 1 i rcd h
      omega
  · intro guess loads p data i rcd h
    rw [jsonParse] at h
    split at h
    · simp at h
    · split at h
      · have := numberRecords_getElem p _ 1 i rcd h
        omega
      · have := numberRecords_getElem p _ 1 i rcd h
        omega
  · intro guess fromstring p data i rcd h
    rw [xmlParse] at h
    split at h
    · simp at h
    · split at h
      · have := numberRecords_getElem p _ 1 i rcd h
        omega
      · have := numberRecords_getElem p _ 1 i rcd h
        omega
  · intro cfg r f hf
    rw [process_record] at hf
    split_ifs at hf with hb
    · simp at hf
    · rcases regexStage_mem.mp hf with ⟨rule, _, v, _, _, rfl⟩
      rfl
  · intro cfg r f hf
    rcases List.mem_append.mp hf with hbase | hent
    · rw [process_record] at hbase
      split_ifs at hbase with hb
      · simp at hbase
      · rcases regexStage_mem.mp hbase with ⟨rule, _, v, _, _, rfl⟩
        rfl
    · rcases entropyStage_mem hent with ⟨tok, _, rfl⟩
      rfl

theorem finding_line_index_is_record_position_witness :
    ((textParse (fun _ => none) "a.txt".toList [97, 10, 98])[1]? =
        some ⟨"a.txt".toList, 2, ['b'], ['b']⟩ ∧
      (2 : Nat) = 1 + 1) ∧
    ((jsonParse (fun _ => none)
        (fun _ => some (.obj [("k".toList, .arr [.scalar "v0".toList,
          .scalar "v1".toList])])) "a.json".toList [123])[1]? =
        some ⟨"a.json".toList, 2, "k.1: v1".toList, "k.1: v1".toList⟩ ∧
      (2 : Nat) = 1 + 1) ∧
    ((xmlParse (fun _ => none) (fun _ => none) "a.xml".toList [60, 10, 62])[1]? =
        some ⟨"a.xml".toList, 2, ['>'], ['>']⟩ ∧
      (2 : Nat) = 1 + 1) ∧
    ((mkBaseFinding akiaCfg akiaRecord akiaRule "AKIA0123456789ABCDEF".toList) ∈
        process_record akiaCfg akiaRecord ∧
      (mkBaseFinding akiaCfg akiaRecord akiaRule
        "AKIA0123456789ABCDEF".toList).line_num = akiaRecord.line_num) ∧
    ((mkEntropyFinding entropyRecord "ABCDEFGHIJKLMNOPQRST".toList) ∈
        secrets_process_record (secretsCfg []) entropyRecord ∧
      (mkEntropyFinding entropyRecord
        "ABCDEFGHIJKLMNOPQRST".toList).line_num = entropyRecord.line_num) := by
  refine ⟨⟨by decide, ?_⟩, ⟨by decide, ?_⟩, ⟨by decide, ?_⟩,
    ⟨by decide, ?_⟩, ⟨by decide, ?_⟩⟩
  · exact finding_line_index_is_record_position.1 (fun _ => none) "a.txt".toList
      [97, 10, 98] 1 ⟨"a.txt".toList, 2, ['b'], ['b']⟩ (by decide)
  · exact finding_line_index_is_record_position.2.1 (fun _ => none)
      (fun _ => some (.obj [("k".toList, .arr [.scalar "v0".toList,
        .scalar "v1".toList])])) "a.json".toList [123] 1
      ⟨"a.json".toList, 2, "k.1: v1".toList, "k.1: v1".toList⟩ (by decide)
  · exact finding_line_index_is_record_position.2.2.1 (fun _ => none)
      (fun _ => none) "a.xml".toList [60, 10, 62] 1
      ⟨"a.xml".toList, 2, ['>'], ['>']⟩ (by decide)
  · exact finding_line_index_is_record_position.2.2.2.1 akiaCfg akiaRecord
      (mkBaseFinding akiaCfg akiaRecord akiaRule "AKIA0123456789ABCDEF".toList)
      (by decide)
  · exact finding_line_index_is_record_position.2.2.2.2 (secretsCfg [])
      entropyRecord
      (mkEntropyFinding entropyRecord "ABCDEFGHIJKLMNOPQRST".toList) (by decide)

/-! ## Safe reading: shared lemmas -/

/-- The head-plus-rest capped read equals a single `take`:
`head ++ rest = data.take maxBytes` when the head is `data.take n`,
`n ≤ maxBytes`. -/
theorem take_head_rest {α : Type} (l : List α) (n m : Nat) (h : n ≤ m) :
    l.take n ++ (l.drop (l.take n).length).take (m - (l.take n).length) =
      l.take m := by
  rw [List.length_take]
  have hkm : min n l.length ≤ m := le_trans (min_le_left _ _) h
  have h1 : l.take n = l.take (min n l.length) := by
    rw [List.take_eq_take, min_eq_left (min_le_right n l.length)]
  have h2 : m = min n l.length + (m - min n l.length) := by omega
  rw [h1]
  conv_rhs => rw [h2, List.take_add]

theorem utf8_isSome_of_not_binary {data : List Nat}
    (h : is_likely_binary data = false) : (utf8Decode data).isSome = true := by
  by_cases hl : data.length = 0
  · rw [List.length_eq_zero.mp hl]
    rfl
  · rw [is_likely_binary] at h
    split_ifs at h with h1 h2 h3 h4 h5
    cases hu : utf8Decode data with
    | none => exact absurd (by rw [hu]; rfl) h5
    | some cs => rfl

/-- Any of the claim's five rejection conditions makes
`is_likely_binary` return `True`. -/
theorem is_likely_binary_of {data : List Nat}
    (h : 0 ∈ data ∨ JAVA_SERIAL_MAGIC.isPrefixOf data = true ∨
      10 * data.countP isControlByte > 3 * data.length ∨
      10 * data.countP (fun b => decide (0x80 ≤ b)) > 6 * data.length ∨
      (utf8Decode data).isNone = true) :
    is_likely_binary data = true := by
  have hne : data.length ≠ 0 := by
    intro hl
    rw [List.length_eq_zero.mp hl] at h
    rcases h with h | h | h | h | h
    · simp at h
    · exact absurd h (by decide)
    · simp at h
    · simp at h
    · exact absurd h (by decide)
  rw [is_likely_binary]
  rw [if_neg hne]
  rcases h with h | h | h | h | h
  · rw [if_pos h]
  · split_ifs <;> rfl
  · split_ifs <;> rfl
  · split_ifs <;> rfl
  · split_ifs <;> rfl

/-! ## C6 -/

/-- **C6** (amended): for a file of at most the 20 MB read cap whose bytes
contain a NUL, start with the Java serialization magic, have a control
ratio over 30 %, a high-bit ratio over 60 %, or fail strict UTF-8, the
safe read returns `None` and every parser yields zero Records (the Option
result models that no error propagates).  Beyond the cap only the first
20 MB are read, so the restriction to the cap is necessary — see the
counterexample. -/
theorem binary_content_yields_no_records
    (guess : List Nat → Option (List Char)) (loads : List Char → Option Json)
    (fromstring : List Char → Option Xml) (p : List Char) (data : List Nat)
    (hlen : data.length ≤ MAX_BYTES)
    (hbin : 0 ∈ data ∨ JAVA_SERIAL_MAGIC.isPrefixOf data = true ∨
      10 * data.countP isControlByte > 3 * data.length ∨
      10 * data.countP (fun b => decide (0x80 ≤ b)) > 6 * data.length ∨
      (utf8Decode data).isNone = true) :
    read_text_safely guess MAX_BYTES data = none ∧
    textParse guess p data = [] ∧
    jsonParse guess loads p data = [] ∧
    xmlParse guess fromstring p data = [] := by
  have hb := is_likely_binary_of hbin
  have hread : read_text_safely guess MAX_BYTES data = none := by
    simp only [read_text_safely]
    split_ifs with h1 h2
    · rfl
    · rfl
    · rw [take_head_rest data (min 4096 MAX_BYTES) MAX_BYTES
        (min_le_right _ _), List.take_of_length_le hlen] at h2
      exact absurd hb (by simp [h2])
  exact ⟨hread, by rw [textParse, hread], by rw [jsonParse, hread],
    by rw [xmlParse, hread]⟩

theorem binary_content_yields_no_records_witness :
    ([0, 65].length ≤ MAX_BYTES ∧ 0 ∈ ([0, 65] : List Nat)) ∧
    (read_text_safely (fun _ => none) MAX_BYTES [0, 65] = none ∧
      textParse (fun _ => none) "b.txt".toList [0, 65] = [] ∧
      jsonParse (fun _ => none) (fun _ => none) "b.json".toList [0, 65] = [] ∧
      xmlParse (fun _ => none) (fun _ => none) "b.xml".toList [0, 65] = []) :=
  ⟨⟨by decide, by decide⟩,
    binary_content_yields_no_records (fun _ => none) (fun _ => none)
      (fun _ => none) "b.txt".toList [0, 65] (by decide) (Or.inl (by decide))⟩

/-! ## C9 -/

/-- **C9**: content accepted by the binary gate always decodes —
`is_likely_binary` already requires strict UTF-8 decodability, so the
UTF-8 fallback candidate of `read_text_safely` succeeds for any charset
guess, and the `return None` of the candidate loop is unreachable:
`read_text_safely` returns `None` only out of the binary gate itself. -/
theorem accepted_content_decode_never_fails :
    (∀ (guess : List Nat → Option (List Char)) (data : List Nat),
      is_likely_binary data = false →
        (decodeWithCandidates guess data).isSome = true) ∧
    (∀ (guess : List Nat → Option (List Char)) (maxBytes : Nat)
      (data : List Nat), read_text_safely guess maxBytes data = none →
        is_likely_binary (data.take (min 4096 maxBytes)) = true ∨
        is_likely_binary (data.take maxBytes) = true) := by
  have hdec : ∀ (guess : List Nat → Option (List Char)) (data : List Nat),
      is_likely_binary data = false →
        (decodeWithCandidates guess data).isSome = true := by
    intro guess data h
    rw [decodeWithCandidates]
    cases hg : guess data with
    | some s => rfl
    | none => exact utf8_isSome_of_not_binary h
  refine ⟨hdec, ?_⟩
  intro guess maxBytes data h
  simp only [read_text_safely] at h
  split_ifs at h with h1 h2
  · exact Or.inl h1
  · refine Or.inr ?_
    rwa [take_head_rest data (min 4096 maxBytes) maxBytes
      (min_le_right _ _)] at h2
  · have := hdec guess _ (Bool.not_eq_true _ ▸ h2)
    rw [h] at this
    cases this

theorem accepted_content_decode_never_fails_witness :
    (is_likely_binary [104, 105] = false ∧
      (decodeWithCandidates (fun _ => none) [104, 105]).isSome = true) ∧
    (read_text_safely (fun _ => none) MAX_BYTES [0] = none ∧
      (is_likely_binary (([0] : List Nat).take (min 4096 MAX_BYTES)) = true ∨
        is_likely_binary (([0] : List Nat).take MAX_BYTES) = true)) :=
  ⟨⟨by decide, accepted_content_decode_never_fails.1 (fun _ => none) [104, 105]
      (by decide)⟩,
    ⟨by decide, accepted_content_decode_never_fails.2 (fun _ => none) MAX_BYTES
      [0] (by decide)⟩⟩

/-! ## C6 counterexample: a NUL byte beyond the read cap -/

theorem utf8DecodeFuel_replicate_a (n : Nat) :
    utf8DecodeFuel n (List.replicate n 97) =
      some (List.replicate n (Char.ofNat 97)) := by
  induction n with
  | zero => rfl
  | succ k ih =>
    rw [List.replicate_succ, List.replicate_succ]
    have hstep : utf8DecodeFuel (k + 1) (97 :: List.replicate k 97) =
        (utf8DecodeFuel k (List.replicate k 97)).map (Char.ofNat 97 :: ·) := by
      rfl
    rw [hstep, ih]
    rfl

theorem utf8Decode_replicate_a (n : Nat) :
    utf8Decode (List.replicate n 97) = some (List.replicate n (Char.ofNat 97)) := by
  rw [utf8Decode, List.length_replicate, utf8DecodeFuel_replicate_a]

theorem is_likely_binary_replicate_a (n : Nat) :
    is_likely_binary (List.replicate n 97) = false := by
  have hpre : JAVA_SERIAL_MAGIC.isPrefixOf (List.replicate n 97) = false := by
    cases n with
    | zero => rfl
    | succ k => rw [List.replicate_succ]; rfl
  have hctl : (List.replicate n 97).countP isControlByte = 0 := by
    rw [List.countP_replicate, if_neg (by decide)]
  have hhigh : (List.replicate n 97).countP (fun b => decide (0x80 ≤ b)) = 0 := by
    rw [List.countP_replicate, if_neg (by decide)]
  rw [is_likely_binary]
  simp [hpre, hctl, hhigh, utf8Decode_replicate_a, List.mem_replicate,
    List.length_replicate]

theorem iterLinesAux_cons_a (rest acc : List Char) :
    iterLinesAux (Char.ofNat 97 :: rest) acc =
      iterLinesAux rest (Char.ofNat 97 :: acc) := by
  rfl

theorem iterLinesAux_replicate_a (n : Nat) :
    ∀ acc : List Char, acc ≠ [] →
      iterLinesAux (List.replicate n (Char.ofNat 97)) acc =
        [acc.reverse ++ List.replicate n (Char.ofNat 97)] := by
  induction n with
  | zero =>
    intro acc hacc
    cases acc with
    | nil => exact absurd rfl hacc
    | cons a t =>
      rw [List.replicate_zero, List.append_nil]
      rfl
  | succ k ih =>
    intro acc hacc
    rw [List.replicate_succ]
    rw [iterLinesAux_cons_a, ih _ (List.cons_ne_nil _ _), List.reverse_cons,
      List.append_assoc, List.singleton_append]

/-- `TextParser.parse` on an accepted read. -/
theorem textParse_eq_of_read (guess : List Nat → Option (List Char))
    (p : List Char) (data : List Nat) (content : List Char)
    (h : read_text_safely guess MAX_BYTES data = some content) :
    textParse guess p data = numberRecords p 1 (iter_lines content) := by
  rw [textParse, h]

/-- **C6** is false as stated for files beyond the 20 MB read cap: a file
of 20 MB of `'a'` followed by one NUL byte contains a NUL, yet the Text
parser reads only the capped prefix, accepts it, and yields one Record. -/
theorem nul_beyond_cap_still_yields_records :
    0 ∈ bigData ∧
    textParse (fun _ => none) "big.txt".toList bigData =
      [⟨"big.txt".toList, 1, List.replicate MAX_BYTES (Char.ofNat 97),
        List.replicate MAX_BYTES (Char.ofNat 97)⟩] := by
  have htake : ∀ k : Nat, k ≤ MAX_BYTES →
      bigData.take k = List.replicate k (97 : Nat) := by
    intro k hk
    rw [bigData,
      List.take_append_of_le_length (by rw [List.length_replicate]; exact hk),
      List.take_replicate, min_eq_left hk]
  constructor
  · rw [bigData]
    exact List.mem_append_right _ (by simp)
  · have htr := take_head_rest bigData (min 4096 MAX_BYTES) MAX_BYTES
      (min_le_right _ _)
    have hread : read_text_safely (fun _ => none) MAX_BYTES bigData =
        some (List.replicate MAX_BYTES (Char.ofNat 97)) := by
      simp only [read_text_safely]
      rw [htr, htake MAX_BYTES le_rfl, htake (min 4096 MAX_BYTES) (min_le_right _ _)]
      rw [is_likely_binary_replicate_a, is_likely_binary_replicate_a,
        if_neg Bool.false_ne_true, if_neg Bool.false_ne_true]
      simp only [decodeWithCandidates]
      rw [utf8Decode_replicate_a]
    rw [textParse_eq_of_read _ _ _ _ hread]
    have hMB : MAX_BYTES = 19999999 + 1 := by norm_num [MAX_BYTES]
    have hlines : iter_lines (List.replicate MAX_BYTES (Char.ofNat 97)) =
        [List.replicate MAX_BYTES (Char.ofNat 97)] := by
      rw [iter_lines]
      rw [hMB, List.replicate_succ]
      rw [iterLinesAux_cons_a, iterLinesAux_replicate_a 19999999 [Char.ofNat 97]
        (List.cons_ne_nil _ _), List.reverse_singleton, List.singleton_append]
    rw [hlines]
    rfl

/-! ## C4 -/

theorem count_eq_one_of_nodup {a : List Char} {l : List (List Char)}
    (hnd : l.Nodup) (h : a ∈ l) : l.count a = 1 := by
  induction l with
  | nil => simp at h
  | cons b t ih =>
    rcases List.mem_cons.mp h with rfl | hmem
    · have hz : t.count a = 0 :=
        List.count_eq_zero.mpr (List.nodup_cons.mp hnd).1
      simp [List.count_cons, hz]
    · have hba : ¬(a = b) := fun he => (List.nodup_cons.mp hnd).1 (he ▸ hmem)
      simp [List.count_cons, ih (List.nodup_cons.mp hnd).2 hmem, hba]

theorem count_endHook_map (pl : List Char) (plugins : List (List Char)) :
    (plugins.map Event.endHook).count (Event.endHook pl) = plugins.count pl := by
  induction plugins with
  | nil => rfl
  | cons a t ih =>
    simp only [List.map_cons, List.count_cons, ih]
    congr 1
    simp [beq_iff_eq]

/-- **C4**: with at least one candidate file, however many files fail
(each job's `fails` flag is arbitrary), every plugin's `end()` fires
exactly once, `end_file` is invoked for every plugin on every file's path,
and every record a parser yielded (before any per-file error) is processed
— the batch never aborts. -/
theorem per_file_failure_isolation (plugins : List (List Char))
    (jobs : List FileJob) (hne : jobs ≠ []) (hnd : plugins.Nodup) :
    ∀ pl ∈ plugins,
      (scan plugins jobs).count (Event.endHook pl) = 1 ∧
      (∀ j ∈ jobs, Event.endFile pl j.path ∈ scan plugins jobs) ∧
      (∀ j ∈ jobs, ∀ rc ∈ j.records, Event.procRec pl rc ∈ scan plugins jobs) := by
  intro pl hpl
  have hscan : scan plugins jobs =
      (plugins.map Event.beginHook) ++ (jobs.flatMap (scanFile plugins)) ++
        (plugins.map Event.endHook) := by
    rw [scan, if_neg (by simp [hne])]
  refine ⟨?_, ?_, ?_⟩
  · rw [hscan, List.count_append, List.count_append]
    have h1 : (plugins.map Event.beginHook).count (Event.endHook pl) = 0 := by
      rw [List.count_eq_zero]
      simp
    have h2 : (jobs.flatMap (scanFile plugins)).count (Event.endHook pl) = 0 := by
      rw [List.count_eq_zero]
      intro hmem
      rcases List.mem_flatMap.mp hmem with ⟨j, _, hj⟩
      simp [scanFile, scanFileBody] at hj
    rw [h1, h2, count_endHook_map, count_eq_one_of_nodup hnd hpl]
  · intro j hj
    rw [hscan]
    refine List.mem_append.mpr (Or.inl (List.mem_append.mpr (Or.inr ?_)))
    refine List.mem_flatMap.mpr ⟨j, hj, ?_⟩
    simp only [scanFile, scanFileBody]
    exact List.mem_append.mpr (Or.inr (List.mem_map.mpr ⟨pl, hpl, rfl⟩))
  · intro j hj rc hrc
    rw [hscan]
    refine List.mem_append.mpr (Or.inl (List.mem_append.mpr (Or.inr ?_)))
    refine List.mem_flatMap.mpr ⟨j, hj, ?_⟩
    simp only [scanFile, scanFileBody]
    refine List.mem_append.mpr (Or.inl (List.mem_append.mpr (Or.inr ?_)))
    exact List.mem_flatMap.mpr ⟨rc, hrc, List.mem_map.mpr ⟨pl, hpl, rfl⟩⟩

theorem per_file_failure_isolation_witness :
    (([jobA, jobB] : List FileJob) ≠ [] ∧ twoPlugins.Nodup ∧
      "secrets".toList ∈ twoPlugins) ∧
    ((scan twoPlugins [jobA, jobB]).count
        (Event.endHook "secrets".toList) = 1 ∧
      Event.endFile "secrets".toList jobA.path ∈ scan twoPlugins [jobA, jobB] ∧
      Event.procRec "secrets".toList entropyRecord ∈
        scan twoPlugins [jobA, jobB]) := by
  have h := per_file_failure_isolation twoPlugins [jobA, jobB]
    (by decide) (by decide) "secrets".toList (by decide)
  exact ⟨⟨by decide, by decide, by decide⟩,
    ⟨h.1, h.2.1 jobA (by decide), h.2.2 jobA (by decide) entropyRecord (by decide)⟩⟩

/-! ## C10 -/

/-- **C10**: when the walker yields no candidate files, `scan` returns
before any lifecycle hook fires: the invocation trace is empty, so
`begin()`/`end()` are never called and no plugin state (in particular no
Findings list, which only events mutate) changes. -/
theorem empty_walk_invokes_no_hooks
    (fnmatchFn : List Char → List Char → Bool) (cfg : WalkCfg)
    (rootChildren : List FSEntry) (plugins : List (List Char))
    (jobOf : List (List Char) → FileJob)
    (h : iter_files fnmatchFn cfg rootChildren = []) :
    scanDir fnmatchFn cfg rootChildren plugins jobOf = [] := by
  rw [scanDir, h]
  rfl

theorem empty_walk_invokes_no_hooks_witness :
    iter_files fnmatchStar c1Cfg emptyWalkTree = [] ∧
    scanDir fnmatchStar c1Cfg emptyWalkTree ["secrets".toList]
      (fun _ => ⟨"x".toList, [], false⟩) = [] :=
  ⟨by decide, empty_walk_invokes_no_hooks fnmatchStar c1Cfg emptyWalkTree
    ["secrets".toList] (fun _ => ⟨"x".toList, [], false⟩) (by decide)⟩

/-! ## C1 -/

/-- **C1** is the intended behaviour (the source's own comment says "skip
traversal into excluded dirs"), but the code filters a full `rglob("*")`
stream and only skips the excluded directory's own entry: with `.git`
excluded and the default include glob, the file `.git/creds.txt` is still
yielded as a candidate, i.e. the walker does descend into excluded
directories. -/
theorem excluded_dir_descended_bug :
    iter_files fnmatchStar c1Cfg c1Tree =
      [[".git".toList, "creds.txt".toList]] ∧
    ".git".toList ∈ c1Cfg.exclude_dirs ∧
    underExcludedDir c1Cfg.exclude_dirs
      [".git".toList, "creds.txt".toList] = true := by
  refine ⟨by decide, by decide, by decide⟩

/-! ## C8 -/

theorem mem_of_mem_dedupKeepFirstAux :
    ∀ (l : List (List Char)) (seen : List (List Char)) (t : List Char),
      t ∈ dedupKeepFirstAux seen l → t ∈ l := by
  intro l
  induction l with
  | nil => intro seen t h; simp [dedupKeepFirstAux] at h
  | cons a tl ih =>
    intro seen t h
    rw [dedupKeepFirstAux] at h
    split_ifs at h with hseen
    · exact List.mem_cons_of_mem _ (ih seen t h)
    · rcases List.mem_cons.mp h with rfl | h2
      · exact List.mem_cons_self _ _
      · exact List.mem_cons_of_mem _ (ih (a :: seen) t h2)

/-- **C8** is false as stated: an unknown name in a mixed selector is
silently dropped, and the scan runs on the remaining known plugins with
exit status 0 and all artifacts written. -/
theorem mixed_unknown_selector_still_scans :
    "bogus".toList ∈
      ((splitCommas (stripLower "secrets,bogus".toList) []).map stripPy) ∧
    "bogus".toList ∉ (["secrets".toList, "web".toList] : List (List Char)) ∧
    run_dir ["secrets".toList, "web".toList] "secrets,bogus".toList =
      ⟨0, true, true, true⟩ := by
  refine ⟨by decide, by decide, by decide⟩

/-- **C8** (amended): a selector whose selection comes up empty — in
particular one naming only unknown plugins — is a fatal pre-flight
condition: `run_dir` returns the distinct exit status 2 and neither starts
the scan nor writes artifacts (the output directory itself was already
created).  Unknown names can never be selected, but alongside known names
they are silently ignored rather than fatal. -/
theorem empty_selection_is_fatal_preflight (allPlugins : List (List Char))
    (selector : List Char) :
    (select_pattern_plugins allPlugins selector = [] →
      run_dir allPlugins selector =
        ⟨2, false, false, true⟩) ∧
    (∀ t ∈ select_pattern_plugins allPlugins selector, t ∈ allPlugins) := by
  constructor
  · intro h
    simp only [run_dir]
    rw [if_pos h]
  · intro t ht
    simp only [select_pattern_plugins] at ht
    split_ifs at ht with hall
    · exact ht
    · have h1 := mem_of_mem_dedupKeepFirstAux _ [] _ ht
      have h2 := List.mem_filter.mp h1
      have h3 := h2.2
      simp only [decide_eq_true_eq] at h3
      exact h3.2

theorem empty_selection_is_fatal_preflight_witness :
    (select_pattern_plugins ["secrets".toList, "web".toList]
        "nonexistent".toList = [] ∧
      run_dir ["secrets".toList, "web".toList] "nonexistent".toList =
        ⟨2, false, false, true⟩) ∧
    ("secrets".toList ∈ select_pattern_plugins
        ["secrets".toList, "web".toList] "secrets,bogus".toList ∧
      "secrets".toList ∈ (["secrets".toList, "web".toList] : List (List Char))) :=
  ⟨⟨by decide,
      (empty_selection_is_fatal_preflight ["secrets".toList, "web".toList]
        "nonexistent".toList).1 (by decide)⟩,
    ⟨by decide,
      (empty_selection_is_fatal_preflight ["secrets".toList, "web".toList]
        "secrets,bogus".toList).2 "secrets".toList (by decide)⟩⟩

end Sigscan
